import Mathlib

/-!
Verification of the BibTeX tooling (`tools/ref_audit.py`, `tools/bibitem_gen.py`):
a shallow embedding of the entry scanner, the field normalizer, the author and
entry formatters, and the corpus merge, together with theorems checking the
specification's claims against them.

Python text is modelled as `List Char` (or `String`, whose data is a `List Char`);
Python `dict`s are modelled as insertion-ordered association lists.  Character
class predicates (`isspace`, `isalpha`, `isalnum`) are modelled on their ASCII
behavior, which covers every input the claims mention.
-/

namespace BibTools

/-- Python `str.isspace` / regex `\s` on ASCII text: space, tab, newline,
carriage return, vertical tab, form feed. -/
def pyIsSpace (c : Char) : Bool :=
  c == ' ' || c == '\t' || c == '\n' || c == '\r' || c == '\x0b' || c == '\x0c'

/-- Python `str.strip()` on a character list: drop leading and trailing
whitespace. -/
def pyStrip (l : List Char) : List Char :=
  ((l.dropWhile pyIsSpace).reverse.dropWhile pyIsSpace).reverse

/-- `str.strip()` at the `String` level. -/
def pyStripS (s : String) : String :=
  String.mk (pyStrip s.data)

/-- Python `str.lower()` via the character list (ASCII `Char.toLower`;
`String.toLower` itself is avoided since `String.map` does not reduce in the
kernel). -/
def strLower (s : String) : String :=
  String.mk (s.data.map Char.toLower)

/-- Python slice `text[a:b]` on a character list. -/
def slice (l : List Char) (a b : Nat) : List Char :=
  (l.drop a).take (b - a)

/-- Lookup in an insertion-ordered association list (Python `dict` access). -/
def dictGet {α : Type} : List (String × α) → String → Option α
  | [], _ => none
  | (k, v) :: rest, key => if k == key then some v else dictGet rest key

/-- Python `dict.get(key, default)`. -/
def dictGetD {α : Type} (d : List (String × α)) (key : String) (dflt : α) : α :=
  (dictGet d key).getD dflt

/-- Python `dict` assignment `d[k] = v`: overwrite in place if the key exists
(keeping its original position), else append. -/
def dictSet {α : Type} : List (String × α) → String → α → List (String × α)
  | [], key, v => [(key, v)]
  | (k, w) :: rest, key, v =>
      if k == key then (k, v) :: rest else (k, w) :: dictSet rest key v

/-- One pass of `merged.setdefault(key, fields)` over all items of a source
dict, in order (ref_audit.py lines 223-224 / bibitem_gen.py lines 190-191):
a key already present in `merged` is never overwritten. -/
def setdefaultFold {α : Type} (merged src : List (String × α)) : List (String × α) :=
  src.foldl (fun m kv => if (dictGet m kv.1).isSome then m else m ++ [kv]) merged

/-- `_strip_outer_braces` (ref_audit.py lines 37-41): strip, then remove the
first and last character whenever the first is `{` and the last is `}` and the
length is at least 2, and strip again.  No check that the two braces actually
match each other is performed. -/
def strip_outer_braces (v : List Char) : List Char :=
  let s := pyStrip v
  if 2 ≤ s.length && s.headD ' ' == '\x7b' && s.getLastD ' ' == '\x7d' then
    pyStrip ((s.drop 1).dropLast)
  else s

/-- Replace every character in `bad` by a space (used for `{`/`}` removal in
`_normalize_title`). -/
def bracesToSpaces (l : List Char) : List Char :=
  l.map (fun c => if c == '\x7b' || c == '\x7d' then ' ' else c)

/-- Matcher for the regex `\\\\[a-zA-Z]+\s*` of `_normalize_title`
(ref_audit.py line 48).  The raw pattern `\\\\` denotes TWO literal
backslashes, so a match requires two backslash characters, then one or more
ASCII letters, then greedy trailing whitespace.  Returns the rest of the list
after the match. -/
def matchDoubleBackslashCmd : List Char → Option (List Char)
  | b1 :: b2 :: c :: rest =>
      if b1 == '\\' && b2 == '\\' && c.isAlpha then
        some ((rest.dropWhile Char.isAlpha).dropWhile pyIsSpace)
      else none
  | _ => none

/-- Fuel-indexed leftmost, non-overlapping application of
`re.sub(r"\\\\[a-zA-Z]+\s*", " ", t)`: each match becomes a single space.
(Fuel bounds the recursion structurally; every match consumes at least one
character, so the input length is always sufficient fuel.) -/
def subDoubleBackslashCmdAux : Nat → List Char → List Char
  | _, [] => []
  | 0, l => l
  | fuel + 1, c :: rest =>
      match matchDoubleBackslashCmd (c :: rest) with
      | some r => ' ' :: subDoubleBackslashCmdAux fuel r
      | none => c :: subDoubleBackslashCmdAux fuel rest

/-- `re.sub(r"\\\\[a-zA-Z]+\s*", " ", t)`. -/
def subDoubleBackslashCmd (l : List Char) : List Char :=
  subDoubleBackslashCmdAux l.length l

/-- Fuel-indexed `re.sub(r"[^0-9a-zA-Z]+", " ", t)`: collapse every maximal
run of non-alphanumeric characters to one space. -/
def subNonAlnumAux : Nat → List Char → List Char
  | _, [] => []
  | 0, l => l
  | fuel + 1, c :: rest =>
      if c.isAlphanum then c :: subNonAlnumAux fuel rest
      else ' ' :: subNonAlnumAux fuel (rest.dropWhile (fun d => !d.isAlphanum))

/-- `re.sub(r"[^0-9a-zA-Z]+", " ", t)`. -/
def subNonAlnum (l : List Char) : List Char :=
  subNonAlnumAux l.length l

/-- Fuel-indexed `re.sub(r"\s+", " ", t)`: collapse every maximal whitespace
run to one space. -/
def collapseWsAux : Nat → List Char → List Char
  | _, [] => []
  | 0, l => l
  | fuel + 1, c :: rest =>
      if pyIsSpace c then ' ' :: collapseWsAux fuel (rest.dropWhile pyIsSpace)
      else c :: collapseWsAux fuel rest

/-- `re.sub(r"\s+", " ", t)`. -/
def collapseWs (l : List Char) : List Char :=
  collapseWsAux l.length l

/-- `_normalize_title` (ref_audit.py lines 44-51): braces to spaces, the
(double-backslash) command substitution, non-alphanumerics to single spaces,
whitespace collapse, strip, lowercase. -/
def normalize_title (title : String) : String :=
  let t := bracesToSpaces title.data
  let t := subDoubleBackslashCmd t
  let t := subNonAlnum t
  let t := collapseWs t
  let t := pyStrip t
  String.mk (t.map Char.toLower)

/-! ## The entry scanner (`parse_bibtex_entries`, ref_audit.py lines 54-172) -/

/-- A field mapping: lowercase field name (plus the bookkeeping key `__type`)
to raw string value. -/
abbrev Fields := List (String × String)

/-- The scanner output: entry key to field mapping, in order of completion. -/
abbrev Entries := List (String × Fields)

/-- Fuel-indexed `while pos < n and p(text[pos]): pos += 1`. -/
def scanWhileAux (p : Char → Bool) (cs : List Char) : Nat → Nat → Nat
  | 0, i => i
  | fuel + 1, i =>
      if i < cs.length && p (cs.getD i ' ') then scanWhileAux p cs fuel (i + 1)
      else i

/-- `while pos < n and p(text[pos]): pos += 1`, started at `i`. -/
def scanWhile (p : Char → Bool) (cs : List Char) (i : Nat) : Nat :=
  scanWhileAux p cs (cs.length - i) i

/-- Fuel-indexed `str.find(ch, i)` (`none` models Python's `-1`). -/
def findCharAux (c : Char) (cs : List Char) : Nat → Nat → Option Nat
  | 0, _ => none
  | fuel + 1, i =>
      if i < cs.length then
        if cs.getD i ' ' == c then some i else findCharAux c cs fuel (i + 1)
      else none

/-- `text.find(ch, i)`: index of the leftmost occurrence of `ch` at or after
`i`, if any. -/
def findChar (c : Char) (cs : List Char) (i : Nat) : Option Nat :=
  findCharAux c cs (cs.length - i) i

/-- The three states of the field state machine (ref_audit.py line 99):
`"name"`, `"before_value"`, `"value"`. -/
inductive PState where
  | pname
  | pbefore
  | pvalue
deriving DecidableEq, Repr

/-- The mutable locals of the field-scanning loop (ref_audit.py lines 96-101):
scan position, pending field name, value buffer, state, brace depth, quote
flag, and the fields collected so far. -/
structure FSt where
  pos : Nat
  pending : Option (List Char)
  value : List Char
  st : PState
  depth : Nat
  quote : Bool
  fields : Fields
deriving Repr

/-- `flush_field` (ref_audit.py lines 103-113): if a name is pending, strip
the buffered value, strip one outer brace pair (per `_strip_outer_braces`),
strip one pair of wrapping double quotes, strip again, and store the result
under the lowercased name; reset name and buffer.  With no pending name it is
a no-op. -/
def flush_field (pending : Option (List Char)) (value : List Char) (fields : Fields) :
    Option (List Char) × List Char × Fields :=
  match pending with
  | none => (none, value, fields)
  | some nm =>
      let v := pyStrip value
      let v := strip_outer_braces v
      let v :=
        if v.headD ' ' == '\x22' && v.getLastD ' ' == '\x22' && 2 ≤ v.length then
          (v.drop 1).dropLast
        else v
      (none, [], dictSet fields (strLower (String.mk nm)) (String.mk (pyStrip v)))

/-- One character-class test of the field-name reader
(`isalnum() or in "-_"`, ref_audit.py line 127). -/
def isNameChar (c : Char) : Bool :=
  c.isAlphanum || c == '-' || c == '_'

/-- The field-scanning loop of `parse_bibtex_entries` (ref_audit.py lines
115-166), fuel-indexed.  Returns the collected fields and the final scan
position; `none` only when the fuel runs out (shown impossible below for
sufficient fuel). -/
def fieldLoop (cs : List Char) (closeCh : Char) : Nat → FSt → Option (Fields × Nat)
  | 0, _ => none
  | fuel + 1, s =>
      if cs.length ≤ s.pos then some (s.fields, s.pos)
      else
        let ch := cs.getD s.pos ' '
        match s.st with
        | PState.pname =>
            if ch == ' ' || ch == '\t' || ch == '\r' || ch == '\n' || ch == ',' then
              fieldLoop cs closeCh fuel { s with pos := s.pos + 1 }
            else if ch == closeCh && s.depth == 0 && !s.quote then
              some ((flush_field s.pending s.value s.fields).2.2, s.pos)
            else
              let stop := scanWhile isNameChar cs s.pos
              fieldLoop cs closeCh fuel
                { s with pos := stop,
                         pending := some (pyStrip (slice cs s.pos stop)),
                         st := PState.pbefore }
        | PState.pbefore =>
            if pyIsSpace ch || ch == '=' then
              fieldLoop cs closeCh fuel { s with pos := s.pos + 1 }
            else
              fieldLoop cs closeCh fuel { s with st := PState.pvalue }
        | PState.pvalue =>
            if ch == '\x22' && s.depth == 0 then
              fieldLoop cs closeCh fuel
                { s with quote := !s.quote, value := s.value ++ [ch], pos := s.pos + 1 }
            else if !s.quote && ch == '\x7b' then
              fieldLoop cs closeCh fuel
                { s with depth := s.depth + 1, value := s.value ++ [ch], pos := s.pos + 1 }
            else if !s.quote && ch == '\x7d' then
              if ch == closeCh && s.depth == 0 then
                some ((flush_field s.pending s.value s.fields).2.2, s.pos)
              else
                fieldLoop cs closeCh fuel
                  { s with depth := s.depth - 1, value := s.value ++ [ch], pos := s.pos + 1 }
            else if !s.quote && ch == ',' && s.depth == 0 then
              let fl := flush_field s.pending s.value s.fields
              fieldLoop cs closeCh fuel
                { s with pending := fl.1, value := fl.2.1, fields := fl.2.2,
                         st := PState.pname, pos := s.pos + 1 }
            else if !s.quote && ch == closeCh && s.depth == 0 then
              some ((flush_field s.pending s.value s.fields).2.2, s.pos)
            else
              fieldLoop cs closeCh fuel { s with value := s.value ++ [ch], pos := s.pos + 1 }

/-- The outer entry loop of `parse_bibtex_entries` (ref_audit.py lines 62-170),
fuel-indexed: find `@`, read the type token, find the opening delimiter, read
the key, find the first comma AFTER THE KEY ANYWHERE IN THE REMAINING TEXT,
run the field loop, record the entry, and continue after it. -/
def scanLoop (cs : List Char) : Nat → Nat → Entries → Option Entries
  | 0, _, _ => none
  | fuel + 1, i, entries =>
      match findChar '@' cs i with
      | none => some entries
      | some atPos =>
          let j := scanWhile pyIsSpace cs (atPos + 1)
          let k := scanWhile (fun c => c.isAlpha || c == '-') cs j
          let entryType := strLower (String.mk (pyStrip (slice cs j k)))
          let k2 := scanWhile (fun c => !(c == '\x7b' || c == '(')) cs k
          if cs.length ≤ k2 then some entries
          else
            let openCh := cs.getD k2 ' '
            let closeCh := if openCh == '\x7b' then '\x7d' else ')'
            let k4 := scanWhile pyIsSpace cs (k2 + 1)
            let k5 := scanWhile (fun c => !(c == ',' || c == '\n' || c == '\r')) cs k4
            let entryKey := String.mk (pyStrip (slice cs k4 k5))
            match findChar ',' cs k5 with
            | none => scanLoop cs fuel k5 entries
            | some comma =>
                let s0 : FSt :=
                  ⟨comma + 1, none, [], PState.pname, 0, false, [("__type", entryType)]⟩
                match fieldLoop cs closeCh (3 * (cs.length - (comma + 1)) + 3) s0 with
                | none => none
                | some (flds, pos) =>
                    let entries' :=
                      if entryKey == "" then entries else dictSet entries entryKey flds
                    scanLoop cs fuel (pos + 1) entries'

/-- `parse_bibtex_entries` (ref_audit.py lines 54-172) on a character list,
with fuel sufficient for the whole input (proved below). -/
def parse_bibtex_entries (cs : List Char) : Option Entries :=
  scanLoop cs (cs.length + 2) 0 []

/-! ## The field normalizer (`strip_tex_braces`, bibitem_gen.py lines 11-30) -/

/-- Fuel-indexed Python `str.replace(pat, rep)` with a nonempty pattern
`p :: ps`: leftmost, non-overlapping replacement. -/
def replaceSubAux (p : Char) (ps rep : List Char) : Nat → List Char → List Char
  | _, [] => []
  | 0, l => l
  | fuel + 1, c :: rest =>
      if (p :: ps).isPrefixOf (c :: rest) then
        rep ++ replaceSubAux p ps rep fuel ((c :: rest).drop (ps.length + 1))
      else c :: replaceSubAux p ps rep fuel rest

/-- Python `str.replace(pat, rep)` with a nonempty pattern `p :: ps`. -/
def replaceSub (p : Char) (ps rep : List Char) (l : List Char) : List Char :=
  replaceSubAux p ps rep l.length l

/-- Fuel-indexed Python `str.split(sep)` with a nonempty separator `p :: ps`:
cut at each leftmost, non-overlapping occurrence of the separator
(`acc` holds the reversed current part). -/
def splitSubAux (p : Char) (ps : List Char) : Nat → List Char → List Char → List (List Char)
  | _, acc, [] => [acc.reverse]
  | 0, acc, l => [acc.reverse ++ l]
  | fuel + 1, acc, c :: rest =>
      if (p :: ps).isPrefixOf (c :: rest) then
        acc.reverse :: splitSubAux p ps fuel [] ((c :: rest).drop (ps.length + 1))
      else splitSubAux p ps fuel (c :: acc) rest

/-- Python `str.split(sep)` with a nonempty separator `p :: ps`. -/
def splitSub (p : Char) (ps : List Char) (l : List Char) : List (List Char) :=
  splitSubAux p ps l.length [] l

/-- The accent characters of the class `` [`'"^~=.uvHc] `` in the regex of
bibitem_gen.py line 18 (backtick, apostrophe, double quote, caret, tilde,
equals, dot, u, v, H, c). -/
def isAccentChar (c : Char) : Bool :=
  c == '\x60' || c == '\x27' || c == '\x22' || c == '^' || c == '~' ||
  c == '=' || c == '.' || c == 'u' || c == 'v' || c == 'H' || c == 'c'

/-- After the captured letter, `\s*\}?` consumes greedy whitespace and then a
closing brace if one is present. -/
def afterAccentLetter (r : List Char) : List Char :=
  let r' := r.dropWhile pyIsSpace
  match r' with
  | cb :: r'' => if cb == '\x7d' then r'' else r'
  | [] => []

/-- Matcher at the head of the list for the accent-macro regex
`\\[`'"^~=.uvHc]\s*\{?\s*([A-Za-z])\s*\}?` (bibitem_gen.py line 18): a
backslash, an accent character, optional whitespace, an optional `{`,
optional whitespace, a captured ASCII letter, then greedy `\s*\}?`.  Returns
the captured letter and the rest after the match. -/
def matchAccent : List Char → Option (Char × List Char)
  | bs :: c :: rest =>
      if bs == '\\' && isAccentChar c then
        match rest.dropWhile pyIsSpace with
        | br :: r2 =>
            if br == '\x7b' then
              match r2.dropWhile pyIsSpace with
              | l :: r3 => if l.isAlpha then some (l, afterAccentLetter r3) else none
              | [] => none
            else if br.isAlpha then some (br, afterAccentLetter r2)
            else none
        | [] => none
      else none
  | _ => none

/-- Fuel-indexed `re.sub` of the accent-macro regex by the captured letter,
leftmost and non-overlapping (bibitem_gen.py line 18). -/
def subAccentsAux : Nat → List Char → List Char
  | _, [] => []
  | 0, l => l
  | fuel + 1, c :: rest =>
      match matchAccent (c :: rest) with
      | some (l, r) => l :: subAccentsAux fuel r
      | none => c :: subAccentsAux fuel rest

/-- `re.sub` of the accent-macro regex by the captured letter. -/
def subAccents (l : List Char) : List Char :=
  subAccentsAux l.length l

/-- `(\[[^\]]*\])?`-style optional delimited group: if the list starts with
`opn` and `cls` occurs in its tail, skip through the first `cls`; otherwise
leave the list unchanged. -/
def tryDelimGroup (opn cls : Char) (l : List Char) : List Char :=
  match l with
  | o :: t =>
      if o == opn then
        match t.dropWhile (fun c => !(c == cls)) with
        | [] => l
        | _ :: r => r
      else l
  | [] => l

/-- Matcher at the head of the list for the TeX-command regex
`\\[a-zA-Z]+\*?(\[[^\]]*\])?(\{[^}]*\})?` (bibitem_gen.py line 21): a
backslash, one or more letters, an optional `*`, an optional complete
bracketed group, an optional complete braced group.  Returns the rest after
the match. -/
def matchCmd : List Char → Option (List Char)
  | bs :: c :: rest =>
      if bs == '\\' && c.isAlpha then
        let r1 := rest.dropWhile Char.isAlpha
        let r2 :=
          match r1 with
          | s :: t => if s == '*' then t else r1
          | [] => r1
        some (tryDelimGroup '\x7b' '\x7d' (tryDelimGroup '[' ']' r2))
      else none
  | _ => none

/-- Fuel-indexed `re.sub` of the TeX-command regex by the empty string,
leftmost and non-overlapping (bibitem_gen.py line 21). -/
def subCmdsAux : Nat → List Char → List Char
  | _, [] => []
  | 0, l => l
  | fuel + 1, c :: rest =>
      match matchCmd (c :: rest) with
      | some r => subCmdsAux fuel r
      | none => c :: subCmdsAux fuel rest

/-- `re.sub` of the TeX-command regex by the empty string. -/
def subCmds (l : List Char) : List Char :=
  subCmdsAux l.length l

/-- Fuel-indexed `re.sub(r"([A-Za-z])'([A-Za-z])", r"\1\2", s)`
(bibitem_gen.py line 27): drop an apostrophe standing between two letters,
leftmost and non-overlapping. -/
def subApostrophesAux : Nat → List Char → List Char
  | _, [] => []
  | _, [a] => [a]
  | _, [a, b] => [a, b]
  | 0, l => l
  | fuel + 1, a :: q :: b :: rest =>
      if a.isAlpha && q == '\x27' && b.isAlpha then
        a :: b :: subApostrophesAux fuel rest
      else a :: subApostrophesAux fuel (q :: b :: rest)

/-- `re.sub(r"([A-Za-z])'([A-Za-z])", r"\1\2", s)`. -/
def subApostrophes (l : List Char) : List Char :=
  subApostrophesAux l.length l

/-- `strip_tex_braces` (bibitem_gen.py lines 11-30): protect `\&`, rewrite
accent macros to their letter, drop remaining TeX commands, drop remaining
backslashes and braces, drop apostrophes between letters, collapse
whitespace and strip, restore `\&`. -/
def strip_tex_braces (s : String) : String :=
  if s == "" then ""
  else
    let amp := "@@AMP@@".data
    let t := replaceSub '\\' ['&'] amp s.data
    let t := subAccents t
    let t := subCmds t
    let t := t.filter (fun c => !(c == '\\'))
    let t := t.filter (fun c => !(c == '\x7b'))
    let t := t.filter (fun c => !(c == '\x7d'))
    let t := subApostrophes t
    let t := pyStrip (collapseWs t)
    String.mk (replaceSub '@' "@AMP@@".data ['\\', '&'] t)

/-! ## Author and entry formatters (bibitem_gen.py lines 33-174) -/

/-- Fuel-indexed split into the maximal nonempty runs of characters not
satisfying `p` (the result of a Python `re.split` on runs of separators,
with empty parts filtered out, as both call sites do). -/
def splitTokensAux (p : Char → Bool) : Nat → List Char → List (List Char)
  | 0, _ => []
  | fuel + 1, l =>
      match l.dropWhile p with
      | [] => []
      | c :: rest =>
          (c :: rest.takeWhile (fun d => !p d)) ::
            splitTokensAux p fuel (rest.dropWhile (fun d => !p d))

/-- Split into the maximal nonempty runs of characters not satisfying `p`. -/
def splitTokens (p : Char → Bool) (l : List Char) : List (List Char) :=
  splitTokensAux p (l.length + 1) l

/-- Separator class of `re.split(r"[\s\-]+", given)` (bibitem_gen.py
line 41). -/
def isWsOrHyphen (c : Char) : Bool :=
  pyIsSpace c || c == '-'

/-- `_initials` (bibitem_gen.py lines 40-43): split the given names on
whitespace/hyphen runs, and for each token whose FIRST character is an ASCII
letter contribute that character uppercased; tokens whose first character is
not a letter contribute nothing. -/
def initials (given : String) : String :=
  let tokens := splitTokens isWsOrHyphen given.data
  String.mk (tokens.filterMap (fun t =>
    match t with
    | c :: _ => if c.isAlpha then some c.toUpper else none
    | [] => none))

/-- Modelled from the spec, for comparison with `initials` (claim C6 wording):
for each whitespace/hyphen-separated token, take the first alphabetic
character OCCURRING ANYWHERE IN THE TOKEN, uppercased. -/
def initialsClaimed (given : String) : String :=
  let tokens := splitTokens isWsOrHyphen given.data
  String.mk (tokens.filterMap (fun t =>
    match t.dropWhile (fun c => !c.isAlpha) with
    | c :: _ => some c.toUpper
    | [] => none))

/-- `split_authors` (bibitem_gen.py lines 33-37): newlines to spaces, split
on the literal `" and "`, strip each part, drop empty parts. -/
def split_authors (authorField : String) : List String :=
  if authorField == "" then []
  else
    let flat := authorField.data.map (fun c => if c == '\n' then ' ' else c)
    (((splitSub ' ' "and ".data flat).map (fun part => pyStripS (String.mk part))).filter
      (fun p => p != ""))

/-- The shared tail of `format_author` (bibitem_gen.py lines 56-59):
`last` plus a space and the initials when there are any. -/
def formatLastGiven (last given : String) : String :=
  let ini := initials given
  if ini != "" then last ++ " " ++ ini else last

/-- `format_author` (bibitem_gen.py lines 46-59): normalize the name; split
surname/given names at the first comma if there is one, otherwise the last
whitespace token is the surname; append the initials. -/
def format_author (nameRaw : String) : String :=
  let nm := strip_tex_braces nameRaw
  if nm.data.contains ',' then
    let i := (nm.data.takeWhile (fun c => !(c == ','))).length
    formatLastGiven (pyStripS (String.mk (nm.data.take i)))
      (pyStripS (String.mk (nm.data.drop (i + 1))))
  else
    let toks := splitTokens pyIsSpace nm.data
    match toks.getLast? with
    | none => ""
    | some lastTok =>
        formatLastGiven (String.mk lastTok)
          (String.intercalate " " (toks.dropLast.map String.mk))

/-- `format_authors` (bibitem_gen.py lines 62-69): format every author, drop
empties, cap at `maxAuthors` with `", et al."`. -/
def format_authors (authorField : String) (maxAuthors : Nat) : String :=
  let authors := ((split_authors authorField).map format_author).filter (fun a => a != "")
  if authors.isEmpty then ""
  else if maxAuthors < authors.length then
    String.intercalate ", " (authors.take maxAuthors) ++ ", et al."
  else String.intercalate ", " authors

/-- `ref_tag` (bibitem_gen.py lines 72-84): declared-type to reference tag. -/
def ref_tag (entryType : String) : String :=
  let t := strLower entryType
  if t == "article" then "[J]"
  else if t == "inproceedings" || t == "conference" || t == "proceedings" then "[C]"
  else if t == "techreport" then "[R]"
  else if t == "book" then "[M]"
  else if t == "phdthesis" || t == "mastersthesis" then "[D]"
  else "[Z]"

/-- `pick_field` (bibitem_gen.py lines 87-92): the first of the named fields
whose stripped value is nonempty, stripped. -/
def pick_field (f : Fields) : List String → String
  | [] => ""
  | n :: rest =>
      let v := pyStripS (dictGetD f n "")
      if v != "" then v else pick_field f rest

/-- The tag selection of `format_entry` (bibitem_gen.py lines 99-106):
field-presence heuristics override the declared type. -/
def entry_tag (f : Fields) : String :=
  if pick_field f ["journal"] != "" then "[J]"
  else if pick_field f ["booktitle"] != "" then "[C]"
  else ref_tag (dictGetD f "__type" "misc")

/-- Python `str.rstrip(".")`: drop every trailing period. -/
def rstripDots (s : String) : String :=
  String.mk (s.data.reverse.dropWhile (fun c => c == '.')).reverse

/-- `pages.replace("--", "-")` (bibitem_gen.py lines 119 and 148). -/
def fixPages (s : String) : String :=
  String.mk (replaceSub '-' ['-'] ['-'] s.data)

/-- `format_entry` (bibitem_gen.py lines 95-174): assemble one formatted
reference line from the entry key and fields. -/
def format_entry (key : String) (f : Fields) : String :=
  let et := dictGetD f "__type" "misc"
  let hasJournal := pick_field f ["journal"] != ""
  let hasBooktitle := pick_field f ["booktitle"] != ""
  let authors := rstripDots (format_authors (pick_field f ["author"]) 3)
  let title0 := strip_tex_braces (pick_field f ["title"])
  let year := pick_field f ["year"]
  let title := if title0 == "" then key else title0
  if hasJournal || strLower et == "article" then
    let journal := strip_tex_braces (pick_field f ["journal"])
    let vol := pick_field f ["volume"]
    let num := pick_field f ["number"]
    let pages := fixPages (pick_field f ["pages"])
    let parts :=
      (if journal != "" then [journal] else []) ++ (if year != "" then [year] else [])
    let vn :=
      if vol != "" && num != "" then vol ++ "(" ++ num ++ ")"
      else if vol != "" then vol
      else if num != "" then "(" ++ num ++ ")"
      else ""
    let vtail :=
      if vn != "" && pages != "" then vn ++ ": " ++ pages
      else if vn != "" then vn
      else if pages != "" then pages
      else ""
    let venue := String.intercalate ", " (parts ++ (if vtail != "" then [vtail] else []))
    if authors != "" then authors ++ ". " ++ title ++ entry_tag f ++ ". " ++ venue ++ "."
    else title ++ entry_tag f ++ ". " ++ venue ++ "."
  else if hasBooktitle ||
      (strLower et == "inproceedings" || strLower et == "conference" ||
        strLower et == "proceedings") then
    let booktitle := strip_tex_braces (pick_field f ["booktitle"])
    let pages := fixPages (pick_field f ["pages"])
    let venueParts :=
      (if booktitle != "" then [booktitle] else []) ++
      (if year != "" then [year] else []) ++
      (if pages != "" then [pages] else [])
    let venue := if venueParts.isEmpty then year else String.intercalate ": " venueParts
    if authors != "" then authors ++ ". " ++ title ++ entry_tag f ++ "//" ++ venue ++ "."
    else title ++ entry_tag f ++ "//" ++ venue ++ "."
  else if strLower et == "techreport" then
    let inst := strip_tex_braces (pick_field f ["institution"])
    let num := pick_field f ["number"]
    let venue := String.intercalate ", " ([inst, year, num].filter (fun p => p != ""))
    if authors != "" then authors ++ ". " ++ title ++ entry_tag f ++ ". " ++ venue ++ "."
    else title ++ entry_tag f ++ ". " ++ venue ++ "."
  else
    let how := strip_tex_braces (pick_field f ["howpublished", "publisher", "note"])
    let venue := String.intercalate ", " ([how, year].filter (fun p => p != ""))
    if authors != "" then
      if venue != "" then authors ++ ". " ++ title ++ entry_tag f ++ ". " ++ venue ++ "."
      else authors ++ ". " ++ title ++ entry_tag f ++ "."
    else
      if venue != "" then title ++ entry_tag f ++ ". " ++ venue ++ "."
      else title ++ entry_tag f ++ "."


/-! ## Totality of the scanner -/

lemma scanWhileAux_ge (p : Char → Bool) (cs : List Char) :
    ∀ fuel i, i ≤ scanWhileAux p cs fuel i := by
  intro fuel
  induction fuel with
  | zero => intro i; simp [scanWhileAux]
  | succ fuel ih =>
      intro i
      simp only [scanWhileAux]
      split
      · have := ih (i + 1); omega
      · exact Nat.le_refl i

lemma scanWhileAux_le (p : Char → Bool) (cs : List Char) :
    ∀ fuel i, scanWhileAux p cs fuel i ≤ i + fuel := by
  intro fuel
  induction fuel with
  | zero => intro i; simp [scanWhileAux]
  | succ fuel ih =>
      intro i
      simp only [scanWhileAux]
      split
      · have := ih (i + 1); omega
      · omega

lemma scanWhile_ge (p : Char → Bool) (cs : List Char) (i : Nat) :
    i ≤ scanWhile p cs i :=
  scanWhileAux_ge p cs _ i

lemma scanWhile_le (p : Char → Bool) (cs : List Char) (i : Nat)
    (h : i ≤ cs.length) : scanWhile p cs i ≤ cs.length := by
  have := scanWhileAux_le p cs (cs.length - i) i
  unfold scanWhile
  omega

lemma findCharAux_bounds (c : Char) (cs : List Char) :
    ∀ fuel i j, findCharAux c cs fuel i = some j → i ≤ j ∧ j < cs.length := by
  intro fuel
  induction fuel with
  | zero => intro i j h; simp [findCharAux] at h
  | succ fuel ih =>
      intro i j h
      simp only [findCharAux] at h
      by_cases hi : i < cs.length
      · rw [if_pos hi] at h
        by_cases hc : (cs.getD i ' ' == c) = true
        · rw [if_pos hc] at h
          obtain rfl := Option.some.inj h
          exact ⟨Nat.le_refl i, hi⟩
        · rw [if_neg hc] at h
          have := ih (i + 1) j h
          omega
      · rw [if_neg hi] at h
        exact absurd h (by simp)

lemma findChar_bounds {c : Char} {cs : List Char} {i j : Nat}
    (h : findChar c cs i = some j) : i ≤ j ∧ j < cs.length :=
  findCharAux_bounds c cs _ i j h

/-- A rank making the three machine states decrease between the two
position-preserving transitions (`name` reads an empty name, then
`before_value` starts the value). -/
def stRank : PState → Nat
  | PState.pname => 2
  | PState.pbefore => 1
  | PState.pvalue => 0

lemma fieldLoop_isSome (cs : List Char) (closeCh : Char) :
    ∀ fuel s, 3 * (cs.length - s.pos) + stRank s.st < fuel →
      (fieldLoop cs closeCh fuel s).isSome := by
  intro fuel
  induction fuel with
  | zero => intro s h; omega
  | succ fuel ih =>
      intro s h
      obtain ⟨pos, pending, value, st, depth, quote, fields⟩ := s
      by_cases hend : cs.length ≤ pos
      · cases st <;> (simp only [fieldLoop]; rw [if_pos hend]; simp)
      · have hpos : pos < cs.length := by omega
        cases st with
        | pname =>
            simp only [stRank] at h
            simp only [fieldLoop]
            rw [if_neg hend]
            split
            · exact ih _ (by simp only [stRank]; omega)
            · split
              · simp
              · have hge := scanWhile_ge isNameChar cs pos
                exact ih _ (by simp only [stRank]; omega)
        | pbefore =>
            simp only [stRank] at h
            simp only [fieldLoop]
            rw [if_neg hend]
            split
            · exact ih _ (by simp only [stRank]; omega)
            · exact ih _ (by simp only [stRank]; omega)
        | pvalue =>
            simp only [stRank] at h
            simp only [fieldLoop]
            rw [if_neg hend]
            split
            · exact ih _ (by simp only [stRank]; omega)
            · split
              · exact ih _ (by simp only [stRank]; omega)
              · split
                · split
                  · simp
                  · exact ih _ (by simp only [stRank]; omega)
                · split
                  · exact ih _ (by simp only [stRank]; omega)
                  · split
                    · simp
                    · exact ih _ (by simp only [stRank]; omega)

lemma fieldLoop_pos (cs : List Char) (closeCh : Char) :
    ∀ fuel s flds p, fieldLoop cs closeCh fuel s = some (flds, p) →
      s.pos ≤ p ∧ (s.pos ≤ cs.length → p ≤ cs.length) := by
  intro fuel
  induction fuel with
  | zero => intro s flds p h; simp [fieldLoop] at h
  | succ fuel ih =>
      intro s flds p h
      obtain ⟨pos, pending, value, st, depth, quote, fields⟩ := s
      simp only
      by_cases hend : cs.length ≤ pos
      · cases st <;>
          (simp only [fieldLoop] at h; rw [if_pos hend] at h;
           have h2 : pos = p := congrArg Prod.snd (Option.some.inj h);
           subst h2; exact ⟨Nat.le_refl _, fun hb => hb⟩)
      · have hpos : pos < cs.length := by omega
        cases st with
        | pname =>
            simp only [fieldLoop] at h
            rw [if_neg hend] at h
            revert h
            split
            · intro h
              have hr := ih _ _ _ h
              simp only at hr
              exact ⟨by omega, fun hb => hr.2 (by omega)⟩
            · split
              · intro h
                have h2 : pos = p := congrArg Prod.snd (Option.some.inj h)
                subst h2
                exact ⟨Nat.le_refl _, fun hb => hb⟩
              · intro h
                have hr := ih _ _ _ h
                simp only at hr
                have hge := scanWhile_ge isNameChar cs pos
                have hle := scanWhile_le isNameChar cs pos (by omega)
                exact ⟨by omega, fun hb => hr.2 (by omega)⟩
        | pbefore =>
            simp only [fieldLoop] at h
            rw [if_neg hend] at h
            revert h
            split
            · intro h
              have hr := ih _ _ _ h
              simp only at hr
              exact ⟨by omega, fun hb => hr.2 (by omega)⟩
            · intro h
              have hr := ih _ _ _ h
              simp only at hr
              exact ⟨hr.1, hr.2⟩
        | pvalue =>
            simp only [fieldLoop] at h
            rw [if_neg hend] at h
            revert h
            split
            · intro h
              have hr := ih _ _ _ h
              simp only at hr
              exact ⟨by omega, fun hb => hr.2 (by omega)⟩
            · split
              · intro h
                have hr := ih _ _ _ h
                simp only at hr
                exact ⟨by omega, fun hb => hr.2 (by omega)⟩
              · split
                · split
                  · intro h
                    have h2 : pos = p := congrArg Prod.snd (Option.some.inj h)
                    subst h2
                    exact ⟨Nat.le_refl _, fun hb => hb⟩
                  · intro h
                    have hr := ih _ _ _ h
                    simp only at hr
                    exact ⟨by omega, fun hb => hr.2 (by omega)⟩
                · split
                  · intro h
                    have hr := ih _ _ _ h
                    simp only at hr
                    exact ⟨by omega, fun hb => hr.2 (by omega)⟩
                  · split
                    · intro h
                      have h2 : pos = p := congrArg Prod.snd (Option.some.inj h)
                      subst h2
                      exact ⟨Nat.le_refl _, fun hb => hb⟩
                    · intro h
                      have hr := ih _ _ _ h
                      simp only at hr
                      exact ⟨by omega, fun hb => hr.2 (by omega)⟩

lemma scanLoop_isSome (cs : List Char) :
    ∀ fuel i entries, cs.length + 1 - i < fuel →
      (scanLoop cs fuel i entries).isSome := by
  intro fuel
  induction fuel with
  | zero => intro i entries h; omega
  | succ fuel ih =>
      intro i entries h
      simp only [scanLoop]
      cases hat : findChar '@' cs i with
      | none => simp
      | some atPos =>
          obtain ⟨hat1, hat2⟩ := findChar_bounds hat
          simp only []
          set j := scanWhile pyIsSpace cs (atPos + 1) with hj_def
          set k := scanWhile (fun c => c.isAlpha || c == '-') cs j with hk_def
          set k2 := scanWhile (fun c => !(c == '\x7b' || c == '(')) cs k with hk2_def
          have hjge : atPos + 1 ≤ j := scanWhile_ge _ cs _
          have hjle : j ≤ cs.length := scanWhile_le _ cs _ (by omega)
          have hkge : j ≤ k := scanWhile_ge _ cs _
          have hkle : k ≤ cs.length := scanWhile_le _ cs _ hjle
          have hk2ge : k ≤ k2 := scanWhile_ge _ cs _
          by_cases hk2lt : cs.length ≤ k2
          · rw [if_pos hk2lt]; simp
          · rw [if_neg hk2lt]
            set k4 := scanWhile pyIsSpace cs (k2 + 1) with hk4_def
            set k5 := scanWhile (fun c => !(c == ',' || c == '\n' || c == '\r')) cs k4
              with hk5_def
            have hk4ge : k2 + 1 ≤ k4 := scanWhile_ge _ cs _
            have hk4le : k4 ≤ cs.length := scanWhile_le _ cs _ (by omega)
            have hk5ge : k4 ≤ k5 := scanWhile_ge _ cs _
            have hk5le : k5 ≤ cs.length := scanWhile_le _ cs _ hk4le
            cases hcm : findChar ',' cs k5 with
            | none => simp only []; exact ih k5 entries (by omega)
            | some comma =>
                obtain ⟨hcm1, hcm2⟩ := findChar_bounds hcm
                simp only []
                have hfl := fieldLoop_isSome cs
                  (if cs.getD k2 ' ' == '\x7b' then '\x7d' else ')')
                  (3 * (cs.length - (comma + 1)) + 3)
                  ⟨comma + 1, none, [], PState.pname, 0, false,
                    [("__type", strLower (String.mk (pyStrip (slice cs j k))))]⟩
                  (by simp only [stRank]; omega)
                cases hflr : fieldLoop cs
                    (if cs.getD k2 ' ' == '\x7b' then '\x7d' else ')')
                    (3 * (cs.length - (comma + 1)) + 3)
                    ⟨comma + 1, none, [], PState.pname, 0, false,
                      [("__type", strLower (String.mk (pyStrip (slice cs j k))))]⟩ with
                | none => rw [hflr] at hfl; simp at hfl
                | some fp =>
                    obtain ⟨flds, pos⟩ := fp
                    simp only []
                    have hp := fieldLoop_pos cs _ _ _ _ _ hflr
                    simp only at hp
                    exact ih (pos + 1) _
                      (by have h1 := hp.1; have h2 := hp.2 (by omega); omega)

/-- `parse_bibtex_entries` always returns with the fuel it is given. -/
lemma parse_bibtex_entries_isSome (cs : List Char) :
    (parse_bibtex_entries cs).isSome :=
  scanLoop_isSome cs (cs.length + 2) 0 [] (by omega)


/-! ## Merge and formatting lemmas -/

lemma dictGet_append_of_some {α : Type} {A : List (String × α)} {k : String} {v : α}
    (B : List (String × α)) (h : dictGet A k = some v) :
    dictGet (A ++ B) k = some v := by
  induction A with
  | nil => simp [dictGet] at h
  | cons p rest ih =>
      obtain ⟨k1, v1⟩ := p
      simp only [dictGet, List.cons_append] at h ⊢
      by_cases hk : (k1 == k) = true
      · rw [if_pos hk] at h ⊢; exact h
      · rw [if_neg hk] at h ⊢; exact ih h

lemma setdefaultFold_cons {α : Type} (A : List (String × α)) (b : String × α)
    (B : List (String × α)) :
    setdefaultFold A (b :: B)
      = setdefaultFold (if (dictGet A b.1).isSome then A else A ++ [b]) B := rfl

lemma setdefaultFold_preserves {α : Type} (B : List (String × α)) :
    ∀ (A : List (String × α)) (k : String) (v : α), dictGet A k = some v →
      dictGet (setdefaultFold A B) k = some v := by
  induction B with
  | nil => intro A k v h; exact h
  | cons b B ih =>
      intro A k v h
      rw [setdefaultFold_cons]
      by_cases hb : (dictGet A b.1).isSome
      · rw [if_pos hb]; exact ih A k v h
      · rw [if_neg hb]; exact ih _ k v (dictGet_append_of_some [b] h)

lemma str_data_append (a b : String) : (a ++ b).data = a.data ++ b.data := by
  cases a; cases b; rfl

lemma neDot (x : String) : x ++ "." ≠ "" := by
  intro h
  have h2 := congrArg (fun s => s.data.length) h
  simp only [str_data_append, List.length_append] at h2
  simp at h2

lemma endsDot (x : String) : (x ++ ".").data.getLast? = some '.' := by
  rw [str_data_append]
  exact List.getLast?_concat _

lemma str_eq_of_data {a b : String} (h : a.data = b.data) : a = b := by
  cases a; cases b; exact congrArg String.mk h

/-- Every formatted line decomposes as `pre ++ entry_tag f ++ mid ++ "."`. -/
lemma format_entry_decomp (key : String) (f : Fields) :
    ∃ pre mid : String, format_entry key f = pre ++ entry_tag f ++ mid ++ "." := by
  unfold format_entry
  lift_lets
  intro et hasJournal hasBooktitle authors title0 year title journal vol num pages
    parts vn vtail venueJ booktitle venueParts venueC inst venueR how venueH
  by_cases h1 : (hasJournal || strLower et == "article") = true
  · rw [if_pos h1]
    by_cases hA : (authors != "") = true
    · rw [if_pos hA]
      exact ⟨authors ++ ". " ++ title, ". " ++ venueJ,
        str_eq_of_data (by simp [str_data_append, List.append_assoc])⟩
    · rw [if_neg hA]
      exact ⟨title, ". " ++ venueJ,
        str_eq_of_data (by simp [str_data_append, List.append_assoc])⟩
  · rw [if_neg h1]
    by_cases h2 : (hasBooktitle ||
        (strLower et == "inproceedings" || strLower et == "conference" ||
          strLower et == "proceedings")) = true
    · rw [if_pos h2]
      by_cases hA : (authors != "") = true
      · rw [if_pos hA]
        exact ⟨authors ++ ". " ++ title, "//" ++ venueC,
          str_eq_of_data (by simp [str_data_append, List.append_assoc])⟩
      · rw [if_neg hA]
        exact ⟨title, "//" ++ venueC,
          str_eq_of_data (by simp [str_data_append, List.append_assoc])⟩
    · rw [if_neg h2]
      by_cases h3 : (strLower et == "techreport") = true
      · rw [if_pos h3]
        by_cases hA : (authors != "") = true
        · rw [if_pos hA]
          exact ⟨authors ++ ". " ++ title, ". " ++ venueR,
            str_eq_of_data (by simp [str_data_append, List.append_assoc])⟩
        · rw [if_neg hA]
          exact ⟨title, ". " ++ venueR,
            str_eq_of_data (by simp [str_data_append, List.append_assoc])⟩
      · rw [if_neg h3]
        by_cases hA : (authors != "") = true
        · rw [if_pos hA]
          by_cases hV : (venueH != "") = true
          · rw [if_pos hV]
            exact ⟨authors ++ ". " ++ title, ". " ++ venueH,
              str_eq_of_data (by simp [str_data_append, List.append_assoc])⟩
          · rw [if_neg hV]
            exact ⟨authors ++ ". " ++ title, "",
              str_eq_of_data (by simp [str_data_append, List.append_assoc])⟩
        · rw [if_neg hA]
          by_cases hV : (venueH != "") = true
          · rw [if_pos hV]
            exact ⟨title, ". " ++ venueH,
              str_eq_of_data (by simp [str_data_append, List.append_assoc])⟩
          · rw [if_neg hV]
            exact ⟨title, "",
              str_eq_of_data (by simp [str_data_append, List.append_assoc])⟩

/-! ## The claims -/

/-- C1: scanning `@article{k, title = {A {Nested} Title}, year = {2020}}`
yields exactly one entry, keyed `k`, with field `title` equal to
`A {Nested} Title` (exactly the one outer brace layer stripped, the inner
braces preserved) and field `year` equal to `2020` (the scanner additionally
records the declared type under the bookkeeping key `__type`). -/
theorem C1_nested_title_scan :
    parse_bibtex_entries
        "@article\x7bk, title = \x7bA \x7bNested\x7d Title\x7d, year = \x7b2020\x7d\x7d".data
      = some [("k", [("__type", "article"), ("title", "A \x7bNested\x7d Title"),
          ("year", "2020")])] := by
  decide

/-- C2: a buffered field value that reads `"A, {B, C}"` is flushed — for
every pending field name and every previously collected field mapping — as
the single value `A, {B, C}` with the wrapping quotes removed; and in a full
entry the scanner buffers exactly that text for the field, the commas inside
the quotes splitting nothing (the following `year` field is still read
separately). -/
theorem C2_quoted_value_single_field :
    (∀ (nm : List Char) (flds : Fields),
      flush_field (some nm) "\x22A, \x7bB, C\x7d\x22".data flds
        = (none, [], dictSet flds (strLower (String.mk nm)) "A, \x7bB, C\x7d")) ∧
    parse_bibtex_entries "@misc\x7bk, note = \x22A, \x7bB, C\x7d\x22, year = 1\x7d".data
      = some [("k", [("__type", "misc"), ("note", "A, \x7bB, C\x7d"), ("year", "1")])] :=
  ⟨fun nm flds => rfl, by decide⟩

/-- C3 counterexample: the claim says the value `{a} and {b}` is stored
unchanged because its first and last braces do not form one enclosing pair;
the code checks only that the first character is `{` and the last is `}`, so
it strips both and stores `a} and {b`. -/
theorem C3_cex_unmatched_braces_stripped :
    strip_outer_braces "\x7ba\x7d and \x7bb\x7d".data = "a\x7d and \x7bb".data ∧
    parse_bibtex_entries "@misc\x7bk, t = \x7ba\x7d and \x7bb\x7d\x7d".data
      = some [("k", [("__type", "misc"), ("t", "a\x7d and \x7bb")])] ∧
    ("a\x7d and \x7bb" : String) ≠ "\x7ba\x7d and \x7bb\x7d" := by
  decide

/-- C3 (amended): whenever the trimmed buffered value has length at least 2,
begins with `{` and ends with `}` — whether or not those two braces form one
matching pair — the flush strips the first and last character and trims
again. -/
theorem C3_strip_first_last_brace (v : List Char)
    (h1 : (pyStrip v).head? = some '\x7b')
    (h2 : (pyStrip v).getLast? = some '\x7d')
    (h3 : 2 ≤ (pyStrip v).length) :
    strip_outer_braces v = pyStrip (((pyStrip v).drop 1).dropLast) := by
  unfold strip_outer_braces
  rw [if_pos (by simp [h1, h2, h3])]

/-- C3 witness: the amended strip behavior evaluated on `{a} and {b}`. -/
theorem C3_strip_first_last_brace_witness :
    strip_outer_braces "\x7ba\x7d and \x7bb\x7d".data
      = pyStrip (((pyStrip "\x7ba\x7d and \x7bb\x7d".data).drop 1).dropLast) :=
  C3_strip_first_last_brace _ (by decide) (by decide) (by decide)

/-- C4 counterexample: after the malformed entry `@article{bad` (no comma
after its key) the scanner searches for a comma in ALL remaining text, finds
the one inside `@article{good, title={T}}`, attaches `title = T` to the key
`bad`, and never recovers the entry `good` — contradicting the claim that
the malformed entry contributes nothing and later entries survive. -/
theorem C4_cex_absorbs_next_entry :
    parse_bibtex_entries "@article\x7bbad\n\x7d\n@article\x7bgood, title=\x7bT\x7d\x7d".data
      = some [("bad", [("__type", "article"), ("title", "T")])] ∧
    dictGet [("bad", ([("__type", "article"), ("title", "T")] : Fields))] "good" = none := by
  decide

/-- C4 (amended): the entry is skipped with nothing stored only when no comma
occurs anywhere in the remaining input (`@a{bad}` alone yields no entries);
when a comma occurs later — even inside a following entry — the malformed
entry absorbs that entry's fields under its own key, and only entries after
the absorbed one are recovered. -/
theorem C4_skip_or_absorb :
    parse_bibtex_entries "@a\x7bbad\x7d".data = some [] ∧
    parse_bibtex_entries
        "@a\x7bbad\n\x7d\n@b\x7bgood, t=\x7bT\x7d\x7d\n@c\x7bthird, u=\x7bU\x7d\x7d".data
      = some [("bad", [("__type", "a"), ("t", "T")]),
              ("third", [("__type", "c"), ("u", "U")])] := by
  decide

/-- C5 counterexample: with booktitle `B`, year `2020` and pages `1--5` the
conference venue is joined with `: ` between ALL parts — `B: 2020: 1-5` —
not `B: 2020, 1-5` as the claim states. -/
theorem C5_cex_conference_join :
    format_entry "k" [("__type", "inproceedings"), ("author", "Doe, Jane"),
        ("title", "T"), ("booktitle", "B"), ("year", "2020"), ("pages", "1--5")]
      = "Doe J. T[C]//B: 2020: 1-5." ∧
    ("Doe J. T[C]//B: 2020: 1-5." : String) ≠ "Doe J. T[C]//B: 2020, 1-5." := by
  decide

/-- C5 (amended): the conference venue is the nonempty parts among booktitle,
year, pages joined with `: ` throughout; with booktitle absent but pages
present the venue is `year: pages`, not the year alone.  The line shape
`<authors>. <title><tag>//<venue>.` holds. -/
theorem C5_conference_colon_join :
    format_entry "k" [("__type", "inproceedings"), ("author", "Doe, Jane"),
        ("title", "T"), ("booktitle", "B"), ("year", "2020"), ("pages", "1--5")]
      = "Doe J. T[C]//" ++ String.intercalate ": " ["B", "2020", "1-5"] ++ "." ∧
    format_entry "k" [("__type", "inproceedings"), ("title", "T"),
        ("year", "2020"), ("pages", "1--5")]
      = "T[C]//" ++ String.intercalate ": " ["2020", "1-5"] ++ "." := by
  decide

/-- C6 counterexample: for the given-name token `(Jane)` — whose first
character is not alphabetic but which contains letters — the claim's rule
yields initial `J`, while the code skips the token entirely and produces no
initial, so `Doe, (Jane)` formats as `Doe`. -/
theorem C6_cex_token_skipped :
    initials "(Jane)" = "" ∧ initialsClaimed "(Jane)" = "J" ∧
    ("" : String) ≠ "J" ∧ format_author "Doe, (Jane)" = "Doe" := by
  decide

/-- C6 (amended): a token contributes an initial only when its FIRST
character is alphabetic (that character uppercased, concatenated with no
separator); tokens starting with a non-alphabetic character contribute
nothing even if letters occur later.  Splitting on whitespace and hyphens
and the spec's worked example are as claimed. -/
theorem C6_first_char_initials :
    initials "Jean-Pierre" = "JP" ∧
    initials "John Paul" = "JP" ∧
    initials "(Jane) X" = "X" ∧
    format_authors "Smith, John Paul and Doe, Jane" 3 = "Smith JP, Doe J" := by
  decide

/-- C7: merging entry maps with `setdefault` in order never overwrites a key
already present: whatever corpus B holds, every key of corpus A keeps its
corpus-A entry in the merged result. -/
theorem C7_first_wins (A B : Entries) (k : String) (f : Fields)
    (h : dictGet A k = some f) :
    dictGet (setdefaultFold A B) k = some f :=
  setdefaultFold_preserves B A k f h

/-- C7 witness: a key `k1` present in both corpora keeps corpus A's entry. -/
theorem C7_first_wins_witness :
    dictGet (setdefaultFold [("k1", [("title", "A")])]
        [("k1", [("title", "B")]), ("k2", [("title", "C")])]) "k1"
      = some [("title", "A")] :=
  C7_first_wins _ _ _ _ (by decide)

/-- C8 (code bug): `_normalize_title` is documented to drop TeX commands, but
its pattern `\\\\[a-zA-Z]+` matches two literal backslashes, so a
single-backslash command such as `\emph` is not removed; only its backslash
falls to the punctuation pass, leaving the residue `emph`.  Hence
`\emph{Fluid} Simulation` and `Fluid Simulation` normalize differently,
contrary to the claim. -/
theorem C8_command_residue :
    normalize_title "\\emph\x7bFluid\x7d Simulation" = "emph fluid simulation" ∧
    normalize_title "Fluid Simulation" = "fluid simulation" ∧
    ("emph fluid simulation" : String) ≠ "fluid simulation" ∧
    normalize_title "\\\\emph\x7bFluid\x7d Simulation" = "fluid simulation" := by
  decide

/-- C9: the scanner is total — for every input, including malformed,
truncated or brace-unbalanced text, `parse_bibtex_entries` returns an entry
mapping (the fuel `length + 2` always suffices, because the outer scan
position strictly increases on every iteration and the inner field machine
advances its position after at most two state transitions — the measure
`3 * remaining + stRank`). -/
theorem C9_parse_total (cs : List Char) : (parse_bibtex_entries cs).isSome :=
  parse_bibtex_entries_isSome cs

/-- C10: for every entry key and field mapping, `format_entry` returns a
nonempty string that ends with a period and contains the selected reference
tag `entry_tag f` as a substring. -/
theorem C10_format_entry_shape (key : String) (f : Fields) :
    format_entry key f ≠ "" ∧
    (format_entry key f).data.getLast? = some '.' ∧
    ∃ x y, (format_entry key f).data = x ++ (entry_tag f).data ++ y := by
  obtain ⟨pre, mid, hEq⟩ := format_entry_decomp key f
  rw [hEq]
  exact ⟨neDot _, endsDot _, pre.data, (mid ++ ".").data,
    by simp [str_data_append, List.append_assoc]⟩

/-- C10 witness: evaluated at a concrete entry. -/
theorem C10_format_entry_shape_witness :
    format_entry "k" [("__type", "book"), ("year", "1999")] ≠ "" ∧
    (format_entry "k" [("__type", "book"), ("year", "1999")]).data.getLast? = some '.' ∧
    ∃ x y, (format_entry "k" [("__type", "book"), ("year", "1999")]).data
      = x ++ (entry_tag [("__type", "book"), ("year", "1999")]).data ++ y :=
  C10_format_entry_shape "k" [("__type", "book"), ("year", "1999")]

end BibTools
